import Mathlib

/-!
Shallow embedding of the picobot agent loop (src/4-agent-loop.ts): the
thread store (saveThread/loadThread), the tool registry and dispatch
inside generateMessages, the execute_bash tool, the pending-message
mailbox, and the per-thread scheduler loop (runThreadLoop).

Machine-level JS values that cross the persistence boundary are modelled
by the inductive `JVal` (a JSON document).  The store holds parsed JSON
documents: `saveThread` serialises a thread with `JSON.stringify` and
`loadThread` re-parses it with `JSON.parse`, so the document tree is the
faithful intermediate form; a file whose bytes are not valid JSON is
modelled as `FileData.rawText`, on which parsing fails.
-/

/-- A JSON value, as produced by JSON.parse / consumed by JSON.stringify. -/
inductive JVal where
  | null
  | bool (b : Bool)
  | num (n : Int)
  | str (s : String)
  | arr (xs : List JVal)
  | obj (fields : List (String × JVal))

/-- Role of a chat message (`MessageParam.role` in the source). -/
inductive Role where
  | user
  | assistant
deriving DecidableEq

/-- One content block of a message: `text`, `tool_use` (a tool call
requested by the model, with structured JSON input), or `tool_result`
(answering a `tool_use` by id; `is_error` is present only when set,
mirroring the object literals pushed in generateMessages). -/
inductive ContentBlock where
  | text (text : String)
  | tool_use (id : String) (name : String) (input : JVal)
  | tool_result (tool_use_id : String) (content : String) (is_error : Option Bool)

/-- Message content: either a plain string or a list of content blocks
(the `string | ContentBlock[]` union of `MessageParam.content`). -/
inductive MContent where
  | str (s : String)
  | blocks (bs : List ContentBlock)

/-- A chat message (`Anthropic.MessageParam`). -/
structure Message where
  role : Role
  content : MContent

/-- A conversation thread (the `Thread` interface): Slack thread id,
channel, and the ordered message history. -/
structure Thread where
  threadTs : String
  channel : String
  messages : List Message

/-- Encoding of a role, as JSON.stringify serialises it. -/
def encodeRole : Role → JVal
  | .user => .str "user"
  | .assistant => .str "assistant"

/-- Encoding of one content block, with the exact field names and order
of the source's object literals. -/
def encodeBlock : ContentBlock → JVal
  | .text t => .obj [("type", .str "text"), ("text", .str t)]
  | .tool_use i name input =>
      .obj [("type", .str "tool_use"), ("id", .str i), ("name", .str name), ("input", input)]
  | .tool_result tuid c e =>
      .obj ([("type", .str "tool_result"), ("tool_use_id", .str tuid), ("content", .str c)] ++
        (match e with
         | none => []
         | some b => [("is_error", .bool b)]))

/-- Encoding of message content. -/
def encodeContent : MContent → JVal
  | .str s => .str s
  | .blocks bs => .arr (bs.map encodeBlock)

/-- Encoding of a message. -/
def encodeMessage (m : Message) : JVal :=
  .obj [("role", encodeRole m.role), ("content", encodeContent m.content)]

/-- Encoding of a whole thread record, as written by saveThread. -/
def encodeThread (t : Thread) : JVal :=
  .obj [("threadTs", .str t.threadTs), ("channel", .str t.channel),
        ("messages", .arr (t.messages.map encodeMessage))]

/-- Object field lookup (first binding wins, as in a parsed JSON object
without duplicate keys). -/
def getField (fields : List (String × JVal)) (k : String) : Option JVal :=
  (fields.find? (fun p => p.1 == k)).map (fun p => p.2)

/-- Decoding of one content block from its JSON form.  `loadThread` in
the source casts the parsed JSON to `Thread` without validation; the
embedding reads it back through this decoder, which is the identity on
every document `saveThread` writes (proved below). -/
def decodeBlock (v : JVal) : Option ContentBlock :=
  match v with
  | .obj fs =>
    match getField fs "type" with
    | some (.str "text") =>
        match getField fs "text" with
        | some (.str t) => some (.text t)
        | _ => none
    | some (.str "tool_use") =>
        match getField fs "id", getField fs "name", getField fs "input" with
        | some (.str i), some (.str name), some input => some (.tool_use i name input)
        | _, _, _ => none
    | some (.str "tool_result") =>
        match getField fs "tool_use_id", getField fs "content" with
        | some (.str tuid), some (.str c) =>
            match getField fs "is_error" with
            | none => some (.tool_result tuid c none)
            | some (.bool b) => some (.tool_result tuid c (some b))
            | some _ => none
        | _, _ => none
    | _ => none
  | _ => none

/-- Decoding of a list of content blocks; fails if any element fails. -/
def decodeBlocks : List JVal → Option (List ContentBlock)
  | [] => some []
  | v :: vs =>
    match decodeBlock v, decodeBlocks vs with
    | some b, some bs => some (b :: bs)
    | _, _ => none

/-- Decoding of message content. -/
def decodeContent (v : JVal) : Option MContent :=
  match v with
  | .str s => some (.str s)
  | .arr xs =>
    match decodeBlocks xs with
    | some bs => some (.blocks bs)
    | none => none
  | _ => none

/-- Decoding of a message. -/
def decodeMessage (v : JVal) : Option Message :=
  match v with
  | .obj fs =>
    match getField fs "role", getField fs "content" with
    | some (.str "user"), some c =>
        match decodeContent c with
        | some mc => some ⟨.user, mc⟩
        | none => none
    | some (.str "assistant"), some c =>
        match decodeContent c with
        | some mc => some ⟨.assistant, mc⟩
        | none => none
    | _, _ => none
  | _ => none

/-- Decoding of a list of messages. -/
def decodeMessages : List JVal → Option (List Message)
  | [] => some []
  | v :: vs =>
    match decodeMessage v, decodeMessages vs with
    | some m, some ms => some (m :: ms)
    | _, _ => none

/-- Decoding of a whole thread record. -/
def decodeThread (v : JVal) : Option Thread :=
  match v with
  | .obj fs =>
    match getField fs "threadTs", getField fs "channel", getField fs "messages" with
    | some (.str ts), some (.str ch), some (.arr ms) =>
        match decodeMessages ms with
        | some msgs => some ⟨ts, ch, msgs⟩
        | none => none
    | _, _, _ => none
  | _ => none

/-- Contents of one stored file: a valid JSON document, or raw bytes on
which JSON.parse throws. -/
inductive FileData where
  | jsonDoc (v : JVal)
  | rawText (s : String)

/-- The storage visible to the thread store: whether the threads
directory exists, and the file at each path inside it. -/
structure FileSystem where
  threadsDirExists : Bool
  files : String → Option FileData

/-- A file system with no threads directory and no files. -/
def emptyFS : FileSystem := { threadsDirExists := false, files := fun _ => none }

/-- Path of a thread's record inside the threads directory
(the source resolves `threadsDir/${threadTs}.json`). -/
def threadPath (threadTs : String) : String := threadTs ++ ".json"

/-- saveThread: creates the threads directory if missing
(`fs.mkdirSync(threadsDir, recursive)`) and overwrites the thread's file
with the serialised record (`fs.writeFileSync(..., JSON.stringify(thread))`). -/
def saveThread (fs : FileSystem) (threadTs : String) (t : Thread) : FileSystem :=
  { threadsDirExists := true,
    files := fun p => if p = threadPath threadTs then some (.jsonDoc (encodeThread t)) else fs.files p }

/-- loadThread, at the JSON.parse level: reads and parses the thread's
file, returning the parsed document, or none when the file is missing or
its contents are not valid JSON (the try/catch returns undefined). -/
def loadThread (fs : FileSystem) (threadTs : String) : Option JVal :=
  match fs.files (threadPath threadTs) with
  | some (.jsonDoc v) => some v
  | _ => none

/-- loadThread viewed at type Thread: the source casts the parsed JSON
to `Thread`; the embedding reads the document through `decodeThread`,
which is the identity on every record saveThread writes. -/
def loadThreadT (fs : FileSystem) (threadTs : String) : Option Thread :=
  (loadThread fs threadTs).bind decodeThread

/-- The thread the loop body starts from:
`loadThread(threadTs) ?? ⟨threadTs, channel, []⟩` (line 226). -/
def initialThread (fs : FileSystem) (threadTs channel : String) : Thread :=
  (loadThreadT fs threadTs).getD { threadTs := threadTs, channel := channel, messages := [] }

/-- JSON string quoting for stringify (escaping the quote, backslash and
newline characters). -/
def jsonEscapeChar (c : Char) : String :=
  if c = '"' then "\\\"" else if c = '\\' then "\\\\"
  else if c = '\n' then "\\n" else String.singleton c

/-- A quoted JSON string literal. -/
def jsonQuote (s : String) : String :=
  "\"" ++ String.join (s.toList.map jsonEscapeChar) ++ "\""

mutual

/-- JSON.stringify of a value (compact form). -/
def jsonStringify : JVal → String
  | .null => "null"
  | .bool true => "true"
  | .bool false => "false"
  | .num n => toString n
  | .str s => jsonQuote s
  | .arr xs => "[" ++ jsonStringifyList xs ++ "]"
  | .obj fs => "\x7b" ++ jsonStringifyFields fs ++ "\x7d"

/-- Comma-separated stringification of array elements. -/
def jsonStringifyList : List JVal → String
  | [] => ""
  | [v] => jsonStringify v
  | v :: vs => jsonStringify v ++ "," ++ jsonStringifyList vs

/-- Comma-separated stringification of object fields. -/
def jsonStringifyFields : List (String × JVal) → String
  | [] => ""
  | [(k, v)] => jsonQuote k ++ ":" ++ jsonStringify v
  | (k, v) :: fs => jsonQuote k ++ ":" ++ jsonStringify v ++ "," ++ jsonStringifyFields fs

end

/-- Return value of a tool's execute: the JS value it resolves with,
which is either already a string or some other JSON value. -/
inductive ToolRet where
  | rstr (s : String)
  | rjson (v : JVal)

/-- A registered tool: its unique name and its execution function.  The
function's outcome is either the resolved return value or the message of
a thrown failure (`Except.error`). -/
structure ToolDef where
  name : String
  execute : JVal → Except String ToolRet

/-- Content stored in a tool_result block for a successful call:
`typeof result === "string" ? result : JSON.stringify(result)`. -/
def retToContent : ToolRet → String
  | .rstr s => s
  | .rjson v => jsonStringify v

/-- Lookup in `toolsByName = new Map(tools.map(t => [t.name, t]))`: a JS
Map built from an entry list keeps the last binding for each key. -/
def lookupTool (tools : List ToolDef) (name : String) : Option ToolDef :=
  tools.reverse.find? (fun t => t.name == name)

/-- Message of the failure thrown when the model names an unregistered
tool (line 184). -/
def toolNotFoundMsg (name : String) : String :=
  "tool \"" ++ name ++ "\" not found"

/-- Dispatch of one tool_use block (the try/catch body of lines
180-200): look the tool up, throw if absent, run it, and turn either
outcome into a tool_result block; any caught failure becomes content
`Error: <message>` with `is_error: true`. -/
def execOne (tools : List ToolDef) (i name : String) (input : JVal) : ContentBlock :=
  match lookupTool tools name with
  | none => .tool_result i ("Error: " ++ toolNotFoundMsg name) (some true)
  | some t =>
    match t.execute input with
    | .ok r => .tool_result i (retToContent r) none
    | .error m => .tool_result i ("Error: " ++ m) (some true)

/-- Whether a block is a tool_use block (`block.type === "tool_use"`). -/
def ContentBlock.isToolUse : ContentBlock → Bool
  | .tool_use _ _ _ => true
  | _ => false

/-- Whether a block has type tool_result (`block.type === "tool_result"`). -/
def ContentBlock.isToolRes : ContentBlock → Bool
  | .tool_result _ _ _ => true
  | _ => false

/-- The for-loop of generateMessages over the response's content blocks:
skips non-tool_use blocks and pushes one tool_result per tool_use, in
order (lines 176-201). -/
def dispatchToolCalls (tools : List ToolDef) : List ContentBlock → List ContentBlock
  | [] => []
  | .tool_use i name input :: rest => execOne tools i name input :: dispatchToolCalls tools rest
  | _ :: rest => dispatchToolCalls tools rest

/-- The ids of the tool_use blocks of a list, in order. -/
def toolUseIds : List ContentBlock → List String
  | [] => []
  | .tool_use i _ _ :: rest => i :: toolUseIds rest
  | _ :: rest => toolUseIds rest

/-- The tool_use_id fields of the tool_result blocks of a list, in order. -/
def resultIds : List ContentBlock → List String
  | [] => []
  | .tool_result i _ _ :: rest => i :: resultIds rest
  | _ :: rest => resultIds rest

/-- generateMessages, given the provider response's content blocks and
the incoming message list: dispatches the tool calls, appends one
assistant message with the raw response blocks, then - only when at
least one tool result was produced - one user message holding the
tool_result blocks; returns the extended list.  It touches no storage:
persistence happens only in runThreadLoop. -/
def generateMessages (tools : List ToolDef) (response : List ContentBlock)
    (messages : List Message) : List Message :=
  let toolResults := dispatchToolCalls tools response
  let ms := messages ++ [⟨.assistant, .blocks response⟩]
  if toolResults.length > 0 then ms ++ [⟨.user, .blocks toolResults⟩] else ms

/-- Wall-clock timeout passed to execSync, in milliseconds (line 134). -/
def execTimeoutMs : Nat := 120000

/-- Output-capture bound passed to execSync, in bytes (line 135). -/
def execMaxBufferBytes : Nat := 1024 * 1024

/-- A join with newline separators, as `Array.prototype.join("\n")`
computes it. -/
def joinNl : List String → String
  | [] => ""
  | [s] => s
  | s :: rest => s ++ "\n" ++ joinNl rest

/-- The failure object execSync throws: partial captured stdout and
stderr, whether the process was killed (timeout), and the failure
message. -/
structure ExecError where
  stdout : String
  stderr : String
  killed : Bool
  message : String

/-- Outcome of one execSync call: clean exit with captured stdout, or a
thrown failure (non-zero exit, timeout, or output overflow). -/
inductive ExecSyncOutcome where
  | success (output : String)
  | failure (e : ExecError)

/-- The execute_bash tool's body (lines 131-147): on clean exit, the
captured stdout or the `(no output)` sentinel when it is empty (the
empty string is falsy, so `output || "(no output)"` takes the sentinel);
on a thrown failure, the non-empty parts among partial stdout, partial
stderr and the timeout marker joined by newlines, falling back to
`Error: <message>` when all are empty. -/
def execute_bash (o : ExecSyncOutcome) : String :=
  match o with
  | .success out => if out = "" then "(no output)" else out
  | .failure e =>
    let parts := [if e.stdout != "" then "stdout:\n" ++ e.stdout else "",
                  if e.stderr != "" then "stderr:\n" ++ e.stderr else "",
                  if e.killed then "Error: command timed out" else ""].filter
                 (fun s => s != "")
    if parts.length > 0 then joinNl parts else "Error: " ++ e.message

/-- The execute_bash registry entry, parameterised by the outside world
(which outcome running a given input's command produces).  The whole
body is wrapped in try/catch, so execute always resolves with a string
and never throws. -/
def execute_bash_tool (world : JVal → ExecSyncOutcome) : ToolDef :=
  { name := "execute_bash",
    execute := fun input => .ok (.rstr (execute_bash (world input))) }

/-- enqueue into the pending mailbox of one conversation id: the handler
appends to the tail of the id's list (lines 287-292). -/
def enqueue (q : List Message) (m : Message) : List Message := q ++ [m]

/-- The loop's mailbox drain for one id (lines 232-234): takes the whole
queued list and resets the queue to empty (`pendingUserMessages.delete`);
no suspension point separates the read from the delete, so the pair is
atomic with respect to other enqueues. -/
def drainAndClear (q : List Message) : List Message × List Message := (q, [])

/-- One mailbox operation for a fixed conversation id. -/
inductive MailboxOp where
  | enq (m : Message)
  | drain

/-- Run of a mailbox-operation sequence from a given queue state:
returns the list drained by each drain, in order, and the final queue. -/
def mailboxRun : List MailboxOp → List Message → List (List Message) × List Message
  | [], q => ([], q)
  | .enq m :: ops, q => mailboxRun ops (enqueue q m)
  | .drain :: ops, q =>
      let d := drainAndClear q
      let r := mailboxRun ops d.2
      (d.1 :: r.1, r.2)

/-- The messages enqueued by an operation sequence, in order. -/
def enqueuedOf : List MailboxOp → List Message
  | [] => []
  | .enq m :: ops => m :: enqueuedOf ops
  | .drain :: ops => enqueuedOf ops

/-- Scheduler state: the `activeThreadLoops` set (as a characteristic
function) together with the list of loop executions actually running
(one entry per running runThreadLoop body). -/
structure Sched where
  active : String → Bool
  loops : List String

/-- The initial scheduler state: no active ids, no running loops. -/
def initSched : Sched := { active := fun _ => false, loops := [] }

/-- Scheduler events: an external trigger (a runThreadLoop call), and
the exit of a running loop - normal or by a thrown failure, since the
`finally` clears the id either way (lines 257-259). -/
inductive SchedEvent where
  | trigger (id : String)
  | exitLoop (id : String)

/-- The conversation id an event concerns. -/
def SchedEvent.tid : SchedEvent → String
  | .trigger i => i
  | .exitLoop i => i

/-- One scheduler transition.  trigger: if the id is already active,
return immediately without starting a loop (lines 219-221); otherwise
mark it active and start a loop (line 222).  exitLoop: a running loop
for the id finishes and its finally removes the id (line 258). -/
def schedStep (s : Sched) (e : SchedEvent) : Sched :=
  match e with
  | .trigger i =>
      if s.active i then s
      else { active := fun x => if x = i then true else s.active x, loops := i :: s.loops }
  | .exitLoop i =>
      if i ∈ s.loops then
        { active := fun x => if x = i then false else s.active x, loops := s.loops.erase i }
      else s

/-- The scheduler state reached from the initial state by a sequence of
events. -/
def runSched (events : List SchedEvent) : Sched := events.foldl schedStep initSched

/-- Single-flight invariant: per id at most one running loop, and the
active set marks exactly the ids with a running loop. -/
def SchedInv (s : Sched) : Prop :=
  ∀ i, s.loops.count i ≤ 1 ∧ (s.active i = true ↔ i ∈ s.loops)

/-- The mailbox map after the loop's `pendingUserMessages.delete(id)`. -/
def clearPending (threadTs : String) (mb : String → List Message) : String → List Message :=
  fun x => if x = threadTs then [] else mb x

/-- State a loop iteration reads and writes: the thread store and the
pending mailbox (`pendingUserMessages`, defaulting to `[]` for ids
without an entry). -/
structure LoopState where
  fs : FileSystem
  mailbox : String → List Message

/-- Termination check of runThreadLoop (lines 238-243), exactly as
coded: the last message has role assistant, its content is not a plain
string, and none of its blocks has type tool_result. -/
def shouldStop (m : Message) : Bool :=
  match m.role, m.content with
  | .assistant, .blocks bs => !(bs.any ContentBlock.isToolRes)
  | _, _ => false

/-- Modelled from the spec: the termination predicate as the spec states
it - stop iff the last message has role assistant and contains no
tool_call block left unanswered.  A tool_call in the final message is
necessarily unanswered, since its answer could only sit in a later
message; a plain-string assistant message contains no tool_call at all. -/
def specShouldStop (m : Message) : Bool :=
  match m.role, m.content with
  | .assistant, .str _ => true
  | .assistant, .blocks bs => !(bs.any ContentBlock.isToolUse)
  | _, _ => false

/-- The termination check applied to a message sequence: none when the
sequence is empty, in which case `messages[messages.length - 1]!` is
undefined and reading `.role` from it throws a TypeError. -/
def loopTerminationCheck (msgs : List Message) : Option Bool :=
  msgs.getLast?.map shouldStop

/-- The message sequence one loop iteration operates on: the loaded (or
fresh) thread's history with the drained pending messages appended
(lines 226-233). -/
def iterMessagesOf (st : LoopState) (threadTs channel : String) : List Message :=
  (initialThread st.fs threadTs channel).messages ++ st.mailbox threadTs

/-- How the generation-and-persist part of one iteration goes: the
provider responds and the save lands; the provider call (or anything
before the pushes) throws; or generation succeeds but the persist step
throws. -/
inductive RoundFate where
  | respond (resp : List ContentBlock)
  | generationThrows
  | saveThrows (resp : List ContentBlock)

/-- Result of one loop iteration: the loop breaks (stopped), runs one
generation round and persists it (continued), faults reading the last
message of an empty sequence (faulted), or aborts on a thrown failure
after the drain (aborted). -/
inductive IterResult where
  | stopped (st : LoopState)
  | continued (st : LoopState)
  | faulted (st : LoopState)
  | aborted (st : LoopState)

/-- Whether an iteration result is `stopped`. -/
def IterResult.isStopped : IterResult → Bool
  | .stopped _ => true
  | _ => false

/-- Whether an iteration result is `faulted`. -/
def IterResult.isFaulted : IterResult → Bool
  | .faulted _ => true
  | _ => false

/-- One body of the `while (true)` loop (lines 225-256): load the thread
or start fresh, drain the mailbox into the message sequence, run the
termination check on the last message, and otherwise perform the
generation round and persist its result.  The mailbox entry for the id
is deleted before the check, so every non-faulting path leaves it
empty. -/
def loopIteration (tools : List ToolDef) (threadTs channel : String)
    (fate : RoundFate) (st : LoopState) : IterResult :=
  let thread := initialThread st.fs threadTs channel
  let msgs := iterMessagesOf st threadTs channel
  let st' : LoopState := { fs := st.fs, mailbox := clearPending threadTs st.mailbox }
  match msgs.getLast? with
  | none => .faulted st'
  | some last =>
    if shouldStop last then .stopped st'
    else
      match fate with
      | .generationThrows => .aborted st'
      | .saveThrows _ => .aborted st'
      | .respond resp =>
          .continued { fs := saveThread st'.fs threadTs
                         { thread with messages := generateMessages tools resp msgs },
                       mailbox := st'.mailbox }

/-- The assistant message of `pendingToolCallThread`: it holds one
tool_use block whose answer sits in no later message. -/
def pendingToolCallMsg : Message :=
  ⟨.assistant, .blocks [.tool_use "toolu_1" "send_slack_message" (.obj [("text", .str "hi")])]⟩

/-- A persisted thread whose last (and only) message is an assistant
message containing one tool_use block - a tool call left unanswered. -/
def pendingToolCallThread : Thread :=
  { threadTs := "t1", channel := "C1", messages := [pendingToolCallMsg] }

/-- Loop state with `pendingToolCallThread` persisted and an empty
mailbox. -/
def pendingToolCallState : LoopState :=
  { fs := saveThread emptyFS "t1" pendingToolCallThread, mailbox := fun _ => [] }

theorem decodeBlock_encodeBlock (b : ContentBlock) :
    decodeBlock (encodeBlock b) = some b := by
  cases b with
  | text t => rfl
  | tool_use i n inp => rfl
  | tool_result tuid c e => cases e <;> rfl

theorem decodeBlocks_encode (bs : List ContentBlock) :
    decodeBlocks (bs.map encodeBlock) = some bs := by
  induction bs with
  | nil => rfl
  | cons b bs ih => simp [decodeBlocks, decodeBlock_encodeBlock, ih]

theorem decodeContent_encodeContent (c : MContent) :
    decodeContent (encodeContent c) = some c := by
  cases c with
  | str s => rfl
  | blocks bs => simp [encodeContent, decodeContent, decodeBlocks_encode]

theorem decodeMessage_encodeMessage (m : Message) :
    decodeMessage (encodeMessage m) = some m := by
  obtain ⟨r, c⟩ := m
  cases r <;>
    simp [encodeMessage, decodeMessage, encodeRole, getField, List.find?,
      decodeContent_encodeContent]

theorem decodeMessages_encode (ms : List Message) :
    decodeMessages (ms.map encodeMessage) = some ms := by
  induction ms with
  | nil => rfl
  | cons m ms ih => simp [decodeMessages, decodeMessage_encodeMessage, ih]

theorem decodeThread_encodeThread (t : Thread) :
    decodeThread (encodeThread t) = some t := by
  obtain ⟨ts, ch, msgs⟩ := t
  simp [encodeThread, decodeThread, getField, List.find?, decodeMessages_encode]

theorem str_append_ne_empty (a b : String) (h : a ≠ "") : a ++ b ≠ "" := by
  intro hc
  apply h
  apply String.ext
  have hd := congrArg String.data hc
  rw [String.data_append] at hd
  rcases List.append_eq_nil.mp hd with ⟨h1, _⟩
  exact h1

theorem execOne_shape (tools : List ToolDef) (i name : String) (input : JVal) :
    ∃ c e, execOne tools i name input = .tool_result i c e := by
  cases hl : lookupTool tools name with
  | none =>
    exact ⟨"Error: " ++ toolNotFoundMsg name, some true, by simp [execOne, hl]⟩
  | some t =>
    cases he : t.execute input with
    | ok r => exact ⟨retToContent r, none, by simp [execOne, hl, he]⟩
    | error m => exact ⟨"Error: " ++ m, some true, by simp [execOne, hl, he]⟩

theorem dispatch_resultIds (tools : List ToolDef) (bs : List ContentBlock) :
    resultIds (dispatchToolCalls tools bs) = toolUseIds bs := by
  induction bs with
  | nil => rfl
  | cons b rest ih =>
    cases b with
    | text t => simpa [dispatchToolCalls, toolUseIds] using ih
    | tool_result i c e => simpa [dispatchToolCalls, toolUseIds] using ih
    | tool_use i name input =>
      obtain ⟨c, e, he⟩ := execOne_shape tools i name input
      simp [dispatchToolCalls, toolUseIds, he, resultIds, ih]

theorem dispatch_length (tools : List ToolDef) (bs : List ContentBlock) :
    (dispatchToolCalls tools bs).length = (toolUseIds bs).length := by
  induction bs with
  | nil => rfl
  | cons b rest ih =>
    cases b <;> simp [dispatchToolCalls, toolUseIds, ih]

theorem dispatch_all_toolRes (tools : List ToolDef) (bs : List ContentBlock) :
    (dispatchToolCalls tools bs).all ContentBlock.isToolRes = true := by
  induction bs with
  | nil => rfl
  | cons b rest ih =>
    cases b with
    | text t => simpa [dispatchToolCalls] using ih
    | tool_result i c e => simpa [dispatchToolCalls] using ih
    | tool_use i name input =>
      obtain ⟨c, e, he⟩ := execOne_shape tools i name input
      simp [dispatchToolCalls, he, ContentBlock.isToolRes, ih]

theorem dispatch_append (tools : List ToolDef) (l1 l2 : List ContentBlock) :
    dispatchToolCalls tools (l1 ++ l2) =
      dispatchToolCalls tools l1 ++ dispatchToolCalls tools l2 := by
  induction l1 with
  | nil => rfl
  | cons b rest ih =>
    cases b <;> simp [dispatchToolCalls, ih]

theorem dispatch_eq_nil_iff (tools : List ToolDef) (bs : List ContentBlock) :
    dispatchToolCalls tools bs = [] ↔ bs.any ContentBlock.isToolUse = false := by
  induction bs with
  | nil => simp [dispatchToolCalls]
  | cons b rest ih =>
    cases b <;> simp [dispatchToolCalls, ContentBlock.isToolUse, ih]

theorem mailboxRun_flatten (ops : List MailboxOp) (q : List Message) :
    (mailboxRun ops q).1.flatten ++ (mailboxRun ops q).2 = q ++ enqueuedOf ops := by
  induction ops generalizing q with
  | nil => simp [mailboxRun, enqueuedOf]
  | cons op rest ih =>
    cases op with
    | enq m => simp [mailboxRun, enqueuedOf, enqueue, ih]
    | drain => simp [mailboxRun, enqueuedOf, drainAndClear, ih]

theorem foldl_enqueue (later : List Message) (q : List Message) :
    List.foldl enqueue q later = q ++ later := by
  induction later generalizing q with
  | nil => simp
  | cons m rest ih => simp [List.foldl, enqueue, ih]

theorem schedInv_init : SchedInv initSched := by
  intro i
  simp [initSched]

theorem schedInv_step (s : Sched) (e : SchedEvent) (h : SchedInv s) :
    SchedInv (schedStep s e) := by
  cases e with
  | trigger i =>
    by_cases ha : s.active i
    · simpa [schedStep, ha] using h
    · intro j
      have hni : i ∉ s.loops := fun hm => ha ((h i).2.mpr hm)
      by_cases hji : j = i
      · subst hji
        constructor
        · simp [schedStep, ha, List.count_cons_self, List.count_eq_zero.mpr hni]
        · simp [schedStep, ha]
      · constructor
        · simpa [schedStep, ha, List.count_cons_of_ne hji] using (h j).1
        · simpa [schedStep, ha, hji] using (h j).2
  | exitLoop i =>
    by_cases hm : i ∈ s.loops
    · intro j
      by_cases hji : j = i
      · subst hji
        have hc1 : s.loops.count j = 1 :=
          le_antisymm (h j).1 (List.count_pos_iff.mpr hm)
        constructor
        · simp [schedStep, hm, List.count_erase_self, hc1]
        · have : j ∉ s.loops.erase j := by
            intro hmem
            have := List.count_pos_iff.mpr hmem
            rw [List.count_erase_self, hc1] at this
            exact absurd this (by norm_num)
          simp [schedStep, hm, this]
      · constructor
        · simpa [schedStep, hm, List.count_erase_of_ne hji] using (h j).1
        · simpa [schedStep, hm, hji, List.mem_erase_of_ne hji] using (h j).2
    · simpa [schedStep, hm] using h

theorem schedInv_run (events : List SchedEvent) : SchedInv (runSched events) := by
  induction events using List.reverseRecOn with
  | nil => exact schedInv_init
  | append_singleton es e ih =>
    rw [runSched, List.foldl_append]
    exact schedInv_step _ e ih

theorem execute_bash_failure_all (so se m : String) (h1 : so ≠ "") (h2 : se ≠ "") :
    execute_bash (.failure ⟨so, se, true, m⟩) =
      ("stdout:\n" ++ so ++ "\n") ++ (("stderr:\n" ++ se ++ "\n") ++ "Error: command timed out") := by
  have hs1 : (so != "") = true := by rw [bne_iff_ne]; exact h1
  have hs2 : (se != "") = true := by rw [bne_iff_ne]; exact h2
  have b1 : (("stdout:\n" ++ so) != "") = true := by
    rw [bne_iff_ne]; exact str_append_ne_empty _ _ (by decide)
  have b2 : (("stderr:\n" ++ se) != "") = true := by
    rw [bne_iff_ne]; exact str_append_ne_empty _ _ (by decide)
  have b3 : (("Error: command timed out" : String) != "") = true := by decide
  simp only [execute_bash, hs1, hs2, if_true, List.filter_cons, List.filter_nil, b1, b2, b3]
  rfl

theorem execute_bash_failure_no_timeout (so se m : String) (h1 : so ≠ "") (h2 : se ≠ "") :
    execute_bash (.failure ⟨so, se, false, m⟩) =
      (("stdout:\n" ++ so) ++ "\n") ++ ("stderr:\n" ++ se) := by
  have hs1 : (so != "") = true := by rw [bne_iff_ne]; exact h1
  have hs2 : (se != "") = true := by rw [bne_iff_ne]; exact h2
  have b1 : (("stdout:\n" ++ so) != "") = true := by
    rw [bne_iff_ne]; exact str_append_ne_empty _ _ (by decide)
  have b2 : (("stderr:\n" ++ se) != "") = true := by
    rw [bne_iff_ne]; exact str_append_ne_empty _ _ (by decide)
  simp only [execute_bash, hs1, hs2, if_true, List.filter_cons, List.filter_nil, b1, b2,
    Bool.false_eq_true, if_false]
  rfl

/-- C1: the loop's coded termination check diverges from the stated
predicate (stop iff the last message has role assistant and contains no
unanswered tool_call).  The code tests the assistant message for
`tool_result` blocks - which an assistant message never carries - where
its own comment says "doesn't contain any tool calls", so with a
persisted thread ending in an assistant message that holds an unanswered
tool_use block the loop stops (zero generation rounds: the round is
never consulted) even though the spec predicate is false there; and on a
plain-string assistant message the code refuses to stop even though the
spec predicate is true. -/
theorem loop_stops_despite_unanswered_tool_call :
    shouldStop pendingToolCallMsg = true
    ∧ specShouldStop pendingToolCallMsg = false
    ∧ (loopIteration [] "t1" "C1" .generationThrows pendingToolCallState).isStopped = true
    ∧ shouldStop ⟨.assistant, .str "done"⟩ = false
    ∧ specShouldStop ⟨.assistant, .str "done"⟩ = true := by
  refine ⟨rfl, rfl, ?_, rfl, rfl⟩
  rfl

/-- C2: per conversation id at most one loop runs at any time: every
state reachable from the initial scheduler state has at most one running
loop per id; a trigger for an already-active id returns with the state
unchanged (no second loop); after a loop exit - normal or thrown, the
`finally` covers both - the id is Idle and no loop for it runs; and an
event for one id changes neither the activity nor the loop count of any
other id. -/
theorem scheduler_single_flight_per_id :
    (∀ events i, (runSched events).loops.count i ≤ 1)
    ∧ (∀ s i, s.active i = true → schedStep s (.trigger i) = s)
    ∧ (∀ events i, (runSched (events ++ [.exitLoop i])).active i = false
        ∧ i ∉ (runSched (events ++ [.exitLoop i])).loops)
    ∧ (∀ s (e : SchedEvent) i, e.tid ≠ i →
        (schedStep s e).active i = s.active i
        ∧ (schedStep s e).loops.count i = s.loops.count i) := by
  refine ⟨fun events i => (schedInv_run events i).1, ?_, ?_, ?_⟩
  · intro s i h
    simp [schedStep, h]
  · intro events i
    have hinv := schedInv_run events
    have hstep : runSched (events ++ [SchedEvent.exitLoop i]) =
        schedStep (runSched events) (.exitLoop i) := by
      simp [runSched, List.foldl_append]
    rw [hstep]
    by_cases hm : i ∈ (runSched events).loops
    · have hc1 : (runSched events).loops.count i = 1 :=
        le_antisymm (hinv i).1 (List.count_pos_iff.mpr hm)
      have hne : i ∉ (runSched events).loops.erase i := by
        intro hmem
        have hp := List.count_pos_iff.mpr hmem
        rw [List.count_erase_self, hc1] at hp
        exact absurd hp (by norm_num)
      constructor
      · simp [schedStep, hm]
      · simpa [schedStep, hm] using hne
    · have hact : (runSched events).active i = false := by
        cases hb : (runSched events).active i
        · rfl
        · exact absurd ((hinv i).2.mp hb) hm
      exact ⟨by simp [schedStep, hm, hact], by simp [schedStep, hm]⟩
  · intro s e i h
    cases e with
    | trigger j =>
      simp only [SchedEvent.tid] at h
      by_cases ha : s.active j
      · simp [schedStep, ha]
      · constructor
        · simp [schedStep, ha, Ne.symm h]
        · simp [schedStep, ha, List.count_cons_of_ne (Ne.symm h)]
    | exitLoop j =>
      simp only [SchedEvent.tid] at h
      by_cases hm : j ∈ s.loops
      · constructor
        · simp [schedStep, hm, Ne.symm h]
        · simp [schedStep, hm, List.count_erase_of_ne (Ne.symm h)]
      · simp [schedStep, hm]

theorem scheduler_single_flight_witness :
    (runSched [SchedEvent.trigger "a", SchedEvent.trigger "a"]).loops.count "a" ≤ 1
    ∧ schedStep { active := fun x => x == "a", loops := ["a"] } (.trigger "a") =
        { active := fun x => x == "a", loops := ["a"] }
    ∧ (runSched [SchedEvent.trigger "a", SchedEvent.exitLoop "a"]).active "a" = false
    ∧ (schedStep initSched (.trigger "a")).active "b" = initSched.active "b" := by
  obtain ⟨h1, h2, h3, h4⟩ := scheduler_single_flight_per_id
  exact ⟨h1 [SchedEvent.trigger "a", SchedEvent.trigger "a"] "a",
    h2 { active := fun x => x == "a", loops := ["a"] } "a" (by decide),
    (h3 [SchedEvent.trigger "a"] "a").1,
    (h4 initSched (.trigger "a") "b" (by decide)).1⟩

/-- C3: over any operation sequence for one conversation id starting
from an empty queue, the concatenation of what the drains returned, in
order, followed by what is still queued, equals exactly the list of
enqueued messages in FIFO enqueue order - so every message is consumed
by exactly one drain, none lost, none delivered twice; and each drain
atomically removes all currently queued entries, resetting the queue to
empty. -/
theorem mailbox_fifo_exactly_once (ops : List MailboxOp) (q : List Message) :
    (mailboxRun ops []).1.flatten ++ (mailboxRun ops []).2 = enqueuedOf ops
    ∧ drainAndClear q = (q, []) := by
  refine ⟨?_, rfl⟩
  simpa using mailboxRun_flatten ops []

/-- C4: one generation round extends the message sequence with exactly
one assistant message holding the response's raw content blocks,
followed by exactly one user message of tool results when and only when
the response holds at least one tool_use block; the dispatched results
are all tool_result blocks, one per tool_use block, referencing the
originating ids in the order the calls were issued.  The function only
returns the extended sequence; the store is untouched by it. -/
theorem generateMessages_round_shape (tools : List ToolDef) (resp : List ContentBlock)
    (msgs : List Message) :
    (generateMessages tools resp msgs =
      if resp.any ContentBlock.isToolUse then
        msgs ++ [⟨.assistant, .blocks resp⟩, ⟨.user, .blocks (dispatchToolCalls tools resp)⟩]
      else msgs ++ [⟨.assistant, .blocks resp⟩])
    ∧ resultIds (dispatchToolCalls tools resp) = toolUseIds resp
    ∧ (dispatchToolCalls tools resp).length = (toolUseIds resp).length
    ∧ (dispatchToolCalls tools resp).all ContentBlock.isToolRes = true := by
  refine ⟨?_, dispatch_resultIds tools resp, dispatch_length tools resp,
    dispatch_all_toolRes tools resp⟩
  by_cases h : resp.any ContentBlock.isToolUse
  · have hne : dispatchToolCalls tools resp ≠ [] := by
      intro h0
      have hfalse := (dispatch_eq_nil_iff tools resp).mp h0
      rw [hfalse] at h
      simp at h
    simp [generateMessages, h, List.length_pos.mpr hne]
  · have h0 : dispatchToolCalls tools resp = [] :=
      (dispatch_eq_nil_iff tools resp).mpr (by simpa using h)
    simp [generateMessages, h, h0]

/-- C5: dispatch handles each tool_use block independently: a block
whose named tool is missing from the registry yields a tool_result with
`is_error` set and content naming the missing tool, a block whose tool
throws yields a tool_result with `is_error` set carrying the failure's
message, and in every case the surrounding blocks' results are computed
exactly as they would be alone - a failing call never aborts the round
or the dispatch of the other calls in the same response. -/
theorem toolDispatch_failure_isolated (tools : List ToolDef) (pre post : List ContentBlock)
    (i name : String) (input : JVal) :
    dispatchToolCalls tools (pre ++ ContentBlock.tool_use i name input :: post) =
      dispatchToolCalls tools pre ++ execOne tools i name input :: dispatchToolCalls tools post
    ∧ (lookupTool tools name = none →
        execOne tools i name input =
          ContentBlock.tool_result i ("Error: " ++ toolNotFoundMsg name) (some true))
    ∧ (∀ t m, lookupTool tools name = some t → t.execute input = Except.error m →
        execOne tools i name input = ContentBlock.tool_result i ("Error: " ++ m) (some true)) := by
  refine ⟨?_, ?_, ?_⟩
  · rw [dispatch_append]
    rfl
  · intro hl
    simp [execOne, hl]
  · intro t m hl he
    simp [execOne, hl, he]

theorem toolDispatch_failure_isolated_witness :
    execOne [] "id1" "frobnicate" JVal.null =
      ContentBlock.tool_result "id1" "Error: tool \"frobnicate\" not found" (some true)
    ∧ execOne [⟨"boom", fun _ => Except.error "kaboom"⟩] "id2" "boom" JVal.null =
        ContentBlock.tool_result "id2" "Error: kaboom" (some true) := by
  constructor
  · rw [(toolDispatch_failure_isolated [] [] [] "id1" "frobnicate" JVal.null).2.1 rfl]
    rfl
  · rw [(toolDispatch_failure_isolated [⟨"boom", fun _ => Except.error "kaboom"⟩] [] []
      "id2" "boom" JVal.null).2.2 ⟨"boom", fun _ => Except.error "kaboom"⟩ "kaboom" rfl rfl]
    rfl

/-- C6: the command-exec tool returns the captured stdout on clean exit,
or the `(no output)` sentinel when it is empty; on a thrown failure it
returns a composed diagnostic concatenating the partial stdout, the
partial stderr, and the timeout marker exactly when the process was
killed for exceeding the deadline - which is 120 seconds; and the result
is always handed back as ordinary tool_result content with no error
flag, never as a dispatch-level error. -/
theorem execute_bash_result_semantics (out : String) (so se m : String)
    (world : JVal → ExecSyncOutcome) (i : String) (input : JVal) :
    (out ≠ "" → execute_bash (.success out) = out)
    ∧ execute_bash (.success "") = "(no output)"
    ∧ execute_bash (.success "hello\n") = "hello\n"
    ∧ (so ≠ "" → se ≠ "" →
        execute_bash (.failure ⟨so, se, true, m⟩) =
          ("stdout:\n" ++ so ++ "\n") ++ (("stderr:\n" ++ se ++ "\n") ++ "Error: command timed out"))
    ∧ (so ≠ "" → se ≠ "" →
        execute_bash (.failure ⟨so, se, false, m⟩) =
          (("stdout:\n" ++ so) ++ "\n") ++ ("stderr:\n" ++ se))
    ∧ execTimeoutMs = 120 * 1000
    ∧ execOne [execute_bash_tool world] i "execute_bash" input =
        ContentBlock.tool_result i (execute_bash (world input)) none := by
  refine ⟨?_, rfl, rfl, ?_, ?_, by decide, rfl⟩
  · intro h
    simp [execute_bash, h]
  · intro h1 h2
    exact execute_bash_failure_all so se m h1 h2
  · intro h1 h2
    exact execute_bash_failure_no_timeout so se m h1 h2

theorem execute_bash_result_semantics_witness :
    execute_bash (.success "hi") = "hi"
    ∧ execute_bash (.failure ⟨"partial out", "boom", true, "ETIMEDOUT"⟩) =
        ("stdout:\npartial out" ++ "\n") ++ (("stderr:\nboom" ++ "\n") ++ "Error: command timed out") := by
  obtain ⟨h1, _, _, h4, _, _, _⟩ :=
    execute_bash_result_semantics "hi" "partial out" "boom" "ETIMEDOUT"
      (fun _ => ExecSyncOutcome.success "") "i" JVal.null
  exact ⟨h1 (by decide), h4 (by decide) (by decide)⟩

/-- C7: loading a conversation id with no stored record returns absent,
loading one whose stored bytes are not parseable JSON returns absent,
and whenever the load is absent the loop starts from a fresh thread with
the id and channel set and an empty message list instead of failing. -/
theorem loadThread_absent_collapses_to_fresh (fs : FileSystem) (ts channel : String) :
    (fs.files (threadPath ts) = none → loadThreadT fs ts = none)
    ∧ (∀ s, fs.files (threadPath ts) = some (.rawText s) → loadThreadT fs ts = none)
    ∧ (loadThreadT fs ts = none →
        initialThread fs ts channel = { threadTs := ts, channel := channel, messages := [] }) := by
  refine ⟨?_, ?_, ?_⟩
  · intro h
    simp [loadThreadT, loadThread, h]
  · intro s h
    simp [loadThreadT, loadThread, h]
  · intro h
    simp [initialThread, h]

theorem loadThread_absent_collapses_to_fresh_witness :
    loadThreadT emptyFS "t1" = none
    ∧ initialThread emptyFS "t1" "C1" = { threadTs := "t1", channel := "C1", messages := [] }
    ∧ loadThreadT
        { threadsDirExists := true,
          files := fun p => if p = threadPath "t1" then some (.rawText "not json") else none }
        "t1" = none := by
  refine ⟨(loadThread_absent_collapses_to_fresh emptyFS "t1" "C1").1 rfl,
    (loadThread_absent_collapses_to_fresh emptyFS "t1" "C1").2.2
      ((loadThread_absent_collapses_to_fresh emptyFS "t1" "C1").1 rfl),
    (loadThread_absent_collapses_to_fresh
      { threadsDirExists := true,
        files := fun p => if p = threadPath "t1" then some (.rawText "not json") else none }
      "t1" "C1").2.1 "not json" (by simp)⟩

/-- C8: a save followed by a load for the same conversation id returns
exactly the saved thread - roles, message order and every block field
preserved - for every thread built from the text, tool_use and
tool_result block shapes or plain string content; a second save fully
replaces the first record; and the save creates the threads directory
when it is missing. -/
theorem saveThread_loadThread_roundtrip (fs : FileSystem) (ts : String) (t t' : Thread) :
    loadThreadT (saveThread fs ts t) ts = some t
    ∧ loadThreadT (saveThread (saveThread fs ts t') ts t) ts = some t
    ∧ (saveThread fs ts t).threadsDirExists = true := by
  refine ⟨?_, ?_, rfl⟩ <;>
    simp [loadThreadT, loadThread, saveThread, decodeThread_encodeThread]

/-- C9: when the persisted thread is absent or has an empty message list
and the mailbox holds nothing for the id, the combined sequence the loop
body builds is empty, so `messages[messages.length - 1]!` is undefined
and the role access faults (the check yields no value and the iteration
faults); conversely the check is defined on every non-empty sequence -
it is well-defined exactly under the precondition that the
persisted-plus-drained sequence is non-empty. -/
theorem termination_check_requires_nonempty (tools : List ToolDef) (fate : RoundFate)
    (st : LoopState) (ts channel : String) :
    ((loadThreadT st.fs ts = none ∨ ∃ t, loadThreadT st.fs ts = some t ∧ t.messages = []) →
      st.mailbox ts = [] →
      loopTerminationCheck (iterMessagesOf st ts channel) = none
      ∧ (loopIteration tools ts channel fate st).isFaulted = true)
    ∧ (iterMessagesOf st ts channel ≠ [] →
        (loopTerminationCheck (iterMessagesOf st ts channel)).isSome = true) := by
  constructor
  · intro hload hmb
    have hmsgs : iterMessagesOf st ts channel = [] := by
      rcases hload with h | ⟨t, h, hm⟩ <;>
        simp [iterMessagesOf, initialThread, h, hmb]
      simp [hm]
    refine ⟨by simp [loopTerminationCheck, hmsgs], ?_⟩
    simp [loopIteration, hmsgs, IterResult.isFaulted]
  · intro h
    simp [loopTerminationCheck, Option.isSome_map', List.getLast?_isSome, h]

theorem termination_check_requires_nonempty_witness :
    loopTerminationCheck (iterMessagesOf ⟨emptyFS, fun _ => []⟩ "t1" "C1") = none
    ∧ (loopIteration [] "t1" "C1" .generationThrows ⟨emptyFS, fun _ => []⟩).isFaulted = true :=
  (termination_check_requires_nonempty [] .generationThrows ⟨emptyFS, fun _ => []⟩
    "t1" "C1").1 (Or.inl rfl) rfl

/-- C10: when the loop is going to run a round (the combined sequence is
non-empty and the termination check says continue) and the generation
round - or the persist step after it - throws, the iteration aborts with
the store untouched and the mailbox entry for the id already cleared:
the drained messages are in neither place, hence lost, and only messages
enqueued after that drain are queued for the next trigger. -/
theorem drained_messages_lost_on_abort (tools : List ToolDef) (ts channel : String)
    (st : LoopState) (resp : List ContentBlock) (lastMsg : Message) (later : List Message) :
    (iterMessagesOf st ts channel).getLast? = some lastMsg → shouldStop lastMsg = false →
    loopIteration tools ts channel .generationThrows st =
        .aborted { fs := st.fs, mailbox := clearPending ts st.mailbox }
    ∧ loopIteration tools ts channel (.saveThrows resp) st =
        .aborted { fs := st.fs, mailbox := clearPending ts st.mailbox }
    ∧ clearPending ts st.mailbox ts = []
    ∧ List.foldl enqueue (clearPending ts st.mailbox ts) later = later := by
  intro hlast hstop
  refine ⟨?_, ?_, ?_, ?_⟩
  · simp [loopIteration, hlast, hstop]
  · simp [loopIteration, hlast, hstop]
  · simp [clearPending]
  · simp [clearPending, foldl_enqueue]

theorem drained_messages_lost_on_abort_witness :
    loopIteration [] "t1" "C1" .generationThrows
        ⟨emptyFS, fun x => if x = "t1" then [⟨Role.user, MContent.str "hi"⟩] else []⟩ =
      .aborted ⟨emptyFS,
        clearPending "t1" (fun x => if x = "t1" then [⟨Role.user, MContent.str "hi"⟩] else [])⟩
    ∧ clearPending "t1"
        (fun x => if x = "t1" then [⟨Role.user, MContent.str "hi"⟩] else []) "t1" = [] := by
  have h := drained_messages_lost_on_abort [] "t1" "C1"
    ⟨emptyFS, fun x => if x = "t1" then [⟨Role.user, MContent.str "hi"⟩] else []⟩
    [] ⟨Role.user, MContent.str "hi"⟩ [] rfl rfl
  exact ⟨h.1, h.2.2.1⟩
